import Mathlib

/-!
Verification development for the sophi-backend sampling/inference core.

We give a shallow embedding of the repository's allocation primitives
(`inferences/utilities/sampling/spatial_allocation.py`,
`temporal_allocation.py`), the weighted draw primitives
(`temporal_sampling.py`, `spatial_sampling.py`,
`spatiotemporal_sampling.py`), the inference provenance chain
(`inferences/models.py`: `Inference.save`, `Inference.get_previous_samples`,
`Inference.draw_samples`, `Inference.evaluate`) and the tree-thinning
routine (`inferences/utilities/vis_tree/tree_thinning.py`), and prove or
refute the frozen specification claims about them.

Modelling conventions:
* Python floats are modelled by `ℚ` (exact rational arithmetic).
* Python `int(x)` (truncation toward zero) is `pyInt`; Python `round` and
  `np.round` (both round-half-to-even) are `roundHalfEven`.
* pandas DataFrames of candidate samples are lists of `Spl` records;
  Python dicts (whose iteration order is insertion order) are association
  lists.
* `raise` is modelled by `Except.error`; a function that cannot raise on
  the modelled paths returns plainly.
* The pseudo-random draws (`DataFrame.sample`) are modelled by an explicit
  `sampler` function parameter, so determinism statements quantify over it.
-/

set_option allowUnsafeReducibility true

attribute [local semireducible] Rat.mul Rat.add Rat.sub Rat.inv

/-- A candidate sample row of the `samples_df` DataFrame:
columns `sample_id`, `time`, `deme`. -/
structure Spl where
  sample_id : Nat
  time : Nat
  deme : Nat
deriving DecidableEq, Repr

/-- Kernel-computable floor of a rational (agrees with `⌊q⌋`). -/
def ratFloor (q : ℚ) : ℤ := q.num.fdiv q.den

/-- Kernel-computable ceiling of a rational (agrees with `⌈q⌉`). -/
def ratCeil (q : ℚ) : ℤ := -ratFloor (-q)

/-- Python `int(q)` on a float: truncation toward zero. -/
def pyInt (q : ℚ) : ℤ :=
  if 0 ≤ q then ratFloor q else ratCeil q

/-- Python `round` and `np.round` on a float: round half to even. -/
def roundHalfEven (q : ℚ) : ℤ :=
  let f : ℤ := ratFloor q
  let r : ℚ := q - f
  if r < 1/2 then f
  else if 1/2 < r then f + 1
  else if f % 2 = 0 then f else f + 1

/-- The shared target-resolution idiom of every allocation/draw primitive:

    if target_proportion is not None and target_number is None:
        target_number = int(target_proportion * N)
    if target_number is None:
        raise ValueError("Either 'target_proportion' or 'target_number' must be specified.")

`target_number` takes precedence when both are given; a lone proportion is
resolved by truncating `target_proportion * N`; neither raises `ValueError`. -/
def resolveTarget (target_proportion : Option ℚ) (target_number : Option ℤ) (N : Nat) :
    Except String ℤ :=
  match target_number, target_proportion with
  | some n, _ => .ok n
  | none, some p => .ok (pyInt (p * N))
  | none, none => .error "Either 'target_proportion' or 'target_number' must be specified."

/-- The post-rounding minimum enforcement loop shared by the spatial
allocation primitives (`if min_number_per_deme > 0: ... raise to minimum`). -/
def applyMinPerKey (m : Nat) (l : List (Nat × ℤ)) : List (Nat × ℤ) :=
  if 0 < m then l.map (fun p => (p.1, max p.2 (m : ℤ))) else l

/-- Embedding of `uniform_sample_spatial_allocation`
(`spatial_allocation.py` lines 5-80): allocate `target_number` across demes
in proportion to each deme's share of the filtered candidate pool. -/
def uniform_sample_spatial_allocation
    (case_incidence : List (Nat × List ℚ)) (samples_df : List Spl)
    (target_proportion : Option ℚ) (target_number : Option ℤ)
    (min_number_per_deme : Nat) (target_demes : Option (List Nat)) :
    Except String (List (Nat × ℤ)) :=
  let tds := target_demes.getD (case_incidence.map Prod.fst)
  let df := samples_df.filter (fun s => tds.contains s.deme)
  let N := df.length
  if N = 0 then .ok (tds.map (fun d => (d, 0)))
  else
    match resolveTarget target_proportion target_number N with
    | .error e => .error e
    | .ok t =>
      let allocated := tds.map (fun d =>
        (d, roundHalfEven (((df.filter (fun s => s.deme = d)).length : ℚ) / N * t)))
      .ok (applyMinPerKey min_number_per_deme allocated)

/-- Embedding of `uniform_population_spatial_allocation`
(`spatial_allocation.py` lines 174-251): allocate across demes in
proportion to population size.  The Python body divides by
`total_population` with no zero-total guard, so a zero total population
with a non-empty filtered pool raises `ZeroDivisionError`; the embedding
surfaces that as an explicit error. -/
def uniform_population_spatial_allocation
    (population_sizes : List (Nat × ℚ)) (samples_df : List Spl)
    (target_proportion : Option ℚ) (target_number : Option ℤ)
    (min_number_per_deme : Nat) (target_demes : Option (List Nat)) :
    Except String (List (Nat × ℤ)) :=
  let tds := target_demes.getD (population_sizes.map Prod.fst)
  let targetPops := tds.filterMap (fun d =>
    (population_sizes.lookup d).map (fun p => (d, p)))
  let totalPopulation := (targetPops.map Prod.snd).sum
  let df := samples_df.filter (fun s => tds.contains s.deme)
  let N := df.length
  if N = 0 then .ok (tds.map (fun d => (d, 0)))
  else
    match resolveTarget target_proportion target_number N with
    | .error e => .error e
    | .ok t =>
      if totalPopulation = 0 ∧ ¬ targetPops.isEmpty then
        .error "ZeroDivisionError: float division by zero"
      else
        let allocated := targetPops.map (fun p =>
          (p.1, roundHalfEven (p.2 / totalPopulation * t)))
        .ok (applyMinPerKey min_number_per_deme allocated)

/-- NumPy slice assignment `full[lo : b+1] = src` into a fresh zero vector
`np.zeros(D)`: succeeds exactly when `src` has the length of the
(clamped) slice, otherwise raises a broadcast `ValueError`. -/
def npSliceAssign (D a b : Nat) (src : List ℤ) : Except String (List ℤ) :=
  let lo := min a D
  let hi := min (b + 1) D
  if src.length = hi - lo then
    .ok ((List.range D).map (fun i => if lo ≤ i ∧ i < hi then src.getD (i - lo) 0 else 0))
  else .error "could not broadcast input array"

/-- NumPy `+=` of two float vectors: requires equal lengths, raising a
broadcast `ValueError` otherwise. -/
def vecAddSameLen (x y : List ℚ) : Except String (List ℚ) :=
  if y.length = x.length then .ok (x.zipWith (· + ·) y) else
  .error "operands could not be broadcast together"

/-- The accumulation `daily_sub_incidence += np.array(deme_cases[a : a+L])`
over all target demes, starting from `np.zeros(L)`. -/
def sumSlices (rows : List (List ℚ)) (a L : Nat) : Except String (List ℚ) :=
  rows.foldlM (fun acc r => vecAddSameLen acc ((r.drop a).take L)) (List.replicate L (0 : ℚ))

/-- Embedding of `uniform_sample_temporal_allocation`
(`temporal_allocation.py` lines 5-106): daily allocation in proportion to
the daily number of available samples.  Note the Python body builds
`daily_sub_samples` of length `D` (the full duration) and then assigns it
into the slice `full_allocation[earliest_time : latest_time+1]`, which has
the sub-range length — a shape mismatch whenever the time range is a
proper sub-range.  The embedding reproduces this through `npSliceAssign`. -/
def uniform_sample_temporal_allocation
    (case_incidence : List (Nat × List ℚ)) (samples_df : List Spl)
    (time_range : Option (Nat × Nat))
    (target_proportion : Option ℚ) (target_number : Option ℤ)
    (target_demes : Option (List Nat)) : Except String (List ℤ) :=
  match case_incidence with
  | [] => .error "StopIteration"
  | (_, v0) :: _ =>
    let D := v0.length
    let tds := target_demes.getD (case_incidence.map Prod.fst)
    let tci := tds.filterMap (fun d => (case_incidence.lookup d).map (fun c => (d, c)))
    if tci.isEmpty then .ok (List.replicate D 0)
    else
      let df0 := samples_df.filter (fun s => tds.contains s.deme)
      let r := time_range.getD (0, D - 1)
      let df := df0.filter (fun s => r.1 ≤ s.time ∧ s.time ≤ r.2)
      let N := df.length
      if N = 0 then .ok (List.replicate D 0)
      else
        match resolveTarget target_proportion target_number N with
        | .error e => .error e
        | .ok t =>
          if df.any (fun s => D ≤ s.time) then
            .error "index out of bounds"
          else
            let daily := (List.range D).map
              (fun i => ((df.filter (fun s => s.time = i)).length : ℚ))
            let total := daily.sum
            if total = 0 then .ok (List.replicate D 0)
            else
              npSliceAssign D r.1 r.2 (daily.map (fun v => roundHalfEven (v / total * t)))

/-- Embedding of `uniform_case_temporal_allocation`
(`temporal_allocation.py` lines 109-221): daily allocation in proportion
to daily incidence summed over the target demes, restricted to the
inclusive day range, with a per-day minimum, returning a full-length
vector that is zero outside the range. -/
def uniform_case_temporal_allocation
    (case_incidence : List (Nat × List ℚ)) (samples_df : List Spl)
    (time_range : Option (Nat × Nat))
    (target_proportion : Option ℚ) (target_number : Option ℤ)
    (min_number_per_day : Nat) (target_demes : Option (List Nat)) :
    Except String (List ℤ) :=
  match case_incidence with
  | [] => .error "StopIteration"
  | (_, v0) :: _ =>
    let D := v0.length
    let tds := target_demes.getD (case_incidence.map Prod.fst)
    let tci := tds.filterMap (fun d => (case_incidence.lookup d).map (fun c => (d, c)))
    if tci.isEmpty then .ok (List.replicate D 0)
    else
      let df0 := samples_df.filter (fun s => tds.contains s.deme)
      let r := time_range.getD (0, D - 1)
      let df := df0.filter (fun s => r.1 ≤ s.time ∧ s.time ≤ r.2)
      let N := df.length
      if N = 0 then .ok (List.replicate D 0)
      else
        if (r.2 : ℤ) - r.1 + 1 < 0 then .error "negative dimensions are not allowed"
        else
          let L := r.2 + 1 - r.1
          match sumSlices (tci.map Prod.snd) r.1 L with
          | .error e => .error e
          | .ok daily =>
            let total := daily.sum
            if total = 0 then .ok (List.replicate D 0)
            else
              match resolveTarget target_proportion target_number N with
              | .error e => .error e
              | .ok t =>
                let dayAlloc := daily.map (fun v => roundHalfEven (v / total * t))
                let dayAlloc := if 0 < min_number_per_day then
                    dayAlloc.map (fun x => max x (min_number_per_day : ℤ))
                  else dayAlloc
                npSliceAssign D r.1 r.2 dayAlloc

/-- Decidable equality on `Except` results, to let witnesses evaluate
embedded computations with `decide`. -/
instance {ε α : Type} [DecidableEq ε] [DecidableEq α] : DecidableEq (Except ε α) :=
  fun a b =>
    match a, b with
    | .ok x, .ok y => if h : x = y then isTrue (by rw [h]) else isFalse (by simp [h])
    | .error x, .error y => if h : x = y then isTrue (by rw [h]) else isFalse (by simp [h])
    | .ok _, .error _ => isFalse (by simp)
    | .error _, .ok _ => isFalse (by simp)

/-- Weighting schemes of the temporal/spatiotemporal draw primitives:
`'cases'`, `'even'`, `'samples'`. -/
inductive TWStrat | cases | even | samples
deriving DecidableEq, Repr

/-- Weighting schemes of the spatial draw primitive:
`'cases'`, `'even'`, `'population'`. -/
inductive SWStrat | cases | even | population
deriving DecidableEq, Repr

/-- Embedding of `weighted_temporal_sampling` (`temporal_sampling.py` lines
5-130).  For each deme with a positive quota it weights that deme's
candidate rows (incidence/bin, 1/bin, or 1), skips the deme when the total
weight is zero, takes the whole subset when the quota covers it, and
otherwise invokes the seeded pandas draw — modelled by the abstract
`sampler` argument, so that any statement proved for every `sampler` is
independent of the randomness.  The per-row weight `twWeight` is
incidence-over-bin, one-over-bin, or unit weight, where the bin count is
the number of the deme's candidates sharing the row's day. -/
def twWeight (weighting_strategy : TWStrat) (case_incidence : Nat → Nat → ℚ)
    (subset : List Spl) (d : Nat) (s : Spl) : ℚ :=
  match weighting_strategy with
  | .cases => case_incidence d s.time / (subset.filter (fun x => x.time = s.time)).length
  | .even => 1 / ((subset.filter (fun x => x.time = s.time)).length : ℚ)
  | .samples => 1

def weighted_temporal_sampling
    (allocation : List (Nat × ℤ)) (samples_df : List Spl)
    (weighting_strategy : TWStrat) (case_incidence : Nat → Nat → ℚ)
    (sampler : ℤ → List (Spl × ℚ) → List Spl) : List Spl :=
  let considered := allocation.map Prod.fst
  let working := samples_df.filter (fun s => considered.contains s.deme)
  (allocation.map (fun dn =>
    if dn.2 ≤ 0 then []
    else
      let subset := working.filter (fun s => s.deme = dn.1)
      if subset.isEmpty then []
      else
        let weight := twWeight weighting_strategy case_incidence subset dn.1
        let totalWeight := (subset.map weight).sum
        if totalWeight = 0 then []
        else if (subset.length : ℤ) ≤ dn.2 then subset
        else sampler dn.2 (subset.map (fun s => (s, weight s))))).flatten

/-- Embedding of `weighted_spatial_sampling` (`spatial_sampling.py` lines
5-156).  `allocation` is the per-day quota vector; for each day with a
positive quota the day's candidate rows are weighted per deme
(incidence/bin, 1/bin, or population/bin); a zero-total-weight day is
skipped, a quota covering the whole day takes everything, and otherwise
the seeded pandas draw — the abstract `sampler` — picks the subset.
The per-row weight `swWeight` is one-over-bin, incidence-over-bin, or
population-over-bin, where the bin count is the number of the day's
candidates sharing the row's deme. -/
def swWeight (weighting_strategy : SWStrat) (case_incidence : Nat → Nat → ℚ)
    (population_sizes : Nat → ℚ) (subset : List Spl) (d : Nat) (s : Spl) : ℚ :=
  match weighting_strategy with
  | .even => 1 / ((subset.filter (fun x => x.deme = s.deme)).length : ℚ)
  | .cases => case_incidence s.deme d / (subset.filter (fun x => x.deme = s.deme)).length
  | .population => population_sizes s.deme / (subset.filter (fun x => x.deme = s.deme)).length

def weighted_spatial_sampling
    (allocation : List ℤ) (samples_df : List Spl)
    (case_incidence : Nat → Nat → ℚ) (target_demes : Option (List Nat))
    (population_sizes : Nat → ℚ) (weighting_strategy : SWStrat)
    (sampler : ℤ → List (Spl × ℚ) → List Spl) : List Spl :=
  let dfT : List Spl := match target_demes with
    | some tds => samples_df.filter (fun s => tds.contains s.deme)
    | none => samples_df
  let D := allocation.length
  ((List.range D).map (fun d =>
    let n := allocation.getD d 0
    if n ≤ 0 then []
    else
      let subset := dfT.filter (fun s => s.time = d)
      if subset.isEmpty then []
      else
        let weight := swWeight weighting_strategy case_incidence population_sizes subset d
        let totalWeight := (subset.map weight).sum
        if totalWeight = 0 then []
        else if (subset.length : ℤ) ≤ n then subset
        else sampler n (subset.map (fun s => (s, weight s))))).flatten

/-- Embedding of `weighted_spatiotemporal_sampling`
(`spatiotemporal_sampling.py` lines 4-125): single-pass joint draw.  After
deme/time filtering it resolves the global target, returns everything when
the target covers the filtered pool, and otherwise draws `target_number`
rows with (deme, time)-bin weights via the abstract `sampler`. -/
def weighted_spatiotemporal_sampling
    (samples_df : List Spl) (weighting_strategy : TWStrat)
    (case_incidence : Nat → Nat → ℚ) (time_range : Option (Nat × Nat))
    (target_proportion : Option ℚ) (target_number : Option ℤ)
    (target_demes : Option (List Nat))
    (sampler : ℤ → List (Spl × ℚ) → List Spl) : Except String (List Spl) :=
  let df0 : List Spl := match target_demes with
    | some tds => samples_df.filter (fun s => tds.contains s.deme)
    | none => samples_df
  let df : List Spl := match time_range with
    | some r => df0.filter (fun s => r.1 ≤ s.time ∧ s.time ≤ r.2)
    | none => df0
  if df.isEmpty then .ok []
  else
    let totalFiltered := df.length
    match resolveTarget target_proportion target_number totalFiltered with
    | .error e => .error e
    | .ok t =>
      if (totalFiltered : ℤ) ≤ t then .ok df
      else
        let binCount := fun (s : Spl) =>
          (df.filter (fun x => x.deme = s.deme ∧ x.time = s.time)).length
        let weight := fun (s : Spl) =>
          match weighting_strategy with
          | .cases => if 0 < binCount s then case_incidence s.deme s.time / binCount s else 0
          | .even => if 0 < binCount s then 1 / (binCount s : ℚ) else 0
          | .samples => 1
        let totalWeight := (df.map weight).sum
        if totalWeight = 0 then .ok []
        else .ok (sampler t (df.map (fun s => (s, weight s))))

/-- A node of the inference provenance tree (`Inference` in
`inferences/models.py`), restricted to the fields `draw_samples` and
`get_previous_samples` read: the drawn `sample_ids` (a nullable JSON list,
with `None` and `[]` behaving identically in the walk) and the nullable
parent reference `head`.  The two constructors encode `head = None` and
`head = some parent`. -/
inductive InfNode where
  | root (sample_ids : List Nat)
  | child (sample_ids : List Nat) (head : InfNode)
deriving DecidableEq, Repr

/-- Field accessor for `sample_ids`. -/
def InfNode.sampleIds : InfNode → List Nat
  | .root s => s
  | .child s _ => s

/-- Field accessor for `head` (the parent reference, `None` at the root). -/
def InfNode.headRef : InfNode → Option InfNode
  | .root _ => none
  | .child _ h => some h

/-- The sample ids collected by the `while current:` walk of
`Inference.get_previous_samples` when started AT `n` (i.e. `n.sample_ids`
followed by every ancestor's): `previous_samples.extend(current.sample_ids)`
then `current = current.head`. -/
def collectChainSamples : InfNode → List Nat
  | .root s => s
  | .child s h => s ++ collectChainSamples h

/-- Embedding of `Inference.get_previous_samples` (`models.py` lines
305-313): walk `head` links from the parent to the root, concatenating each
visited node's `sample_ids`. -/
def get_previous_samples (n : InfNode) : List Nat :=
  match n with
  | .root _ => []
  | .child _ h => collectChainSamples h

/-- The strict ancestors of a node, nearest first, obtained by following
`head` links. -/
def InfNode.ancestors : InfNode → List InfNode
  | .root _ => []
  | .child _ h => h :: h.ancestors

/-- Embedding of the core of `Inference.draw_samples` (`models.py` lines
491-511): the owning SamplesAllocation's draw produces `drawn` (the
`sample_id` column of the returned DataFrame, abstracted here because the
claim quantifies over it), and the node keeps only the ids not in
`get_previous_samples`:
`samples_df[~samples_df['sample_id'].isin(previous_samples)]`. -/
def draw_samples_filtered (n : InfNode) (drawn : List Nat) : List Nat :=
  drawn.filter (fun s => ¬ (get_previous_samples n).contains s)

/-- A persisted `Inference` row as seen by `Inference.save` (`models.py`
lines 277-296): primary key, `uuid`, owning `simulation`, nullable parent
`head` (by primary key), and the derived `inference_chain`. -/
structure InfRecord where
  pk : Nat
  uuid : String
  simulation : Nat
  head : Option Nat
  chain : List String
deriving DecidableEq, Repr

/-- The Django queryset filter `simulation=self.simulation, head__isnull=True`. -/
def isRootFor (sim : Nat) (r : InfRecord) : Bool :=
  r.simulation == sim && r.head == none

/-- The `inference_chain` population step of `Inference.save`:
`[self.uuid]` at the root, else `self.head.inference_chain + [self.uuid]`
(the parent exists in the database through the foreign key). -/
def computeChain (db : List InfRecord) (r : InfRecord) : InfRecord :=
  match r.head with
  | none => { r with chain := [r.uuid] }
  | some hpk =>
    { r with chain :=
        (match db.find? (fun x => x.pk == hpk) with
         | some p => p.chain
         | none => []) ++ [r.uuid] }

/-- Embedding of `Inference.save` (`models.py` lines 277-296) over a
database modelled as the list of persisted rows.  `self._state.adding`
holds exactly when the row's primary key is not yet in the database.  A
new root while a root exists for the simulation — or an update that would
make this row a second root — raises `ValidationError` before anything is
written; otherwise the chain is populated and the row inserted/updated. -/
def saveInference (db : List InfRecord) (r : InfRecord) : Except String (List InfRecord) :=
  let adding := !(db.any (fun x => x.pk == r.pk))
  if adding then
    if r.head == none && db.any (isRootFor r.simulation) then
      .error "Only one root inference is allowed."
    else
      .ok (db ++ [computeChain db r])
  else
    if r.head == none && db.any (fun x => x.pk != r.pk && isRootFor r.simulation x) then
      .error "Only one root inference is allowed."
    else
      .ok (db.map (fun x => if x.pk == r.pk then computeChain db r else x))

/-- The database state after a `save` call: unchanged when the call raised
(the `ValidationError` is raised before `super().save()`), else the
returned state. -/
def saveInferenceState (db : List InfRecord) (r : InfRecord) : List InfRecord :=
  match saveInference db r with
  | .ok db' => db'
  | .error _ => db

/-- Number of root rows (`head IS NULL`) an outbreak has in the database. -/
def rootCount (db : List InfRecord) (sim : Nat) : Nat :=
  db.countP (isRootFor sim)

/-- The fields of an inferred migratory event that `Inference.evaluate`
reads (`models.py` lines 672-682). -/
structure EvEvent where
  origin_deme : ℤ
  origin_time : ℚ
  destination_deme : ℤ
  destination_time : ℚ
deriving DecidableEq, Repr

/-- An entry of `inferred_earliest_introductions`: `tpmrca`, `tmrca` and
nullable `source`. -/
structure InferredIntro where
  tpmrca : ℚ
  tmrca : ℚ
  source : Option ℤ
deriving DecidableEq, Repr

/-- An entry of `true_earliest_introductions`: `time` and nullable `source`. -/
structure TrueIntro where
  time : ℚ
  source : Option ℤ
deriving DecidableEq, Repr

/-- Python dict assignment `m[k] = v`: update in place when the key
exists, else append (dicts iterate in insertion order). -/
def dictInsert {α : Type} (m : List (ℤ × α)) (k : ℤ) (v : α) : List (ℤ × α) :=
  if m.any (fun p => p.1 == k) then m.map (fun p => if p.1 == k then (k, v) else p)
  else m ++ [(k, v)]

/-- The `inferred_earliest_introductions` accumulation of
`Inference.evaluate` (`models.py` lines 671-682): keep, per destination
deme, the event with the smallest `origin_time` (strict improvement only). -/
def inferredEarliestIntroductions (events : List EvEvent) : List (ℤ × InferredIntro) :=
  events.foldl (fun m e =>
    match m.lookup e.destination_deme with
    | none =>
      dictInsert m e.destination_deme ⟨e.origin_time, e.destination_time, some e.origin_deme⟩
    | some cur =>
      if e.origin_time < cur.tpmrca then
        dictInsert m e.destination_deme ⟨e.origin_time, e.destination_time, some e.origin_deme⟩
      else m) []

/-- The `true_earliest_introductions` accumulation (`models.py` lines
696-704) over ground-truth `(time, origin, destination)` triples. -/
def trueEarliestIntroductions (trueEvents : List (ℚ × ℤ × ℤ)) : List (ℤ × TrueIntro) :=
  trueEvents.foldl (fun m e =>
    match m.lookup e.2.2 with
    | none => dictInsert m e.2.2 ⟨e.1, some e.2.1⟩
    | some cur => if e.1 < cur.time then dictInsert m e.2.2 ⟨e.1, some e.2.1⟩ else m) []

/-- The evaluation scores assembled by `Inference.evaluate` (`models.py`
lines 744-752).  `sampling_props` is produced by the separate
`calculate_samples_per_deme` method and is not modelled here. -/
structure EvalScores where
  num_inferred_events : Nat
  prop_true_events_inferred : ℚ
  earliest_intro_time_eval_count : ℚ
  earliest_intro_time_eval_score : ℚ
  earliest_intro_source_eval_count : ℚ
deriving DecidableEq, Repr

/-- The scoring loop of `Inference.evaluate` (`models.py` lines 713-736):
for each deme with a true introduction, time correctness holds when the
true time lies in the inferred `[tpmrca, tmrca]` interval, scoring
`1/(1+|tmrca-tpmrca|)`; source correctness compares the inferred source
(or, when null, the outbreak origin) with the true source. -/
def evalScoreFold (inferredMap : List (ℤ × InferredIntro)) (outbreak_origin : ℤ)
    (trueMap : List (ℤ × TrueIntro)) : ℚ × ℚ × ℚ :=
  trueMap.foldl (fun acc p =>
    match inferredMap.lookup p.1 with
    | some ii =>
      let timeCorrect := ii.tpmrca ≤ p.2.time ∧ p.2.time ≤ ii.tmrca
      let sourceCorrect :=
        match ii.source with
        | some s => p.2.source == some s
        | none => p.2.source == some outbreak_origin
      (acc.1 + (if timeCorrect then 1 else 0),
       acc.2.1 + (if timeCorrect then 1 / (1 + |ii.tmrca - ii.tpmrca|) else 0),
       acc.2.2 + (if sourceCorrect then 1 else 0))
    | none => acc) (0, 0, 0)

/-- Embedding of `Inference.evaluate` (`models.py` lines 662-759) as a
function of the data it reads: the inferred migratory events, the inferred
tree's root deme and time, the simulation's ground-truth events and
outbreak origin.  `prop_true_events_inferred` is the plain count ratio
`num_inferred_events / len(true_events)`, which raises
`ZeroDivisionError` when there are no ground-truth events. -/
def evaluateInference (events : List EvEvent) (root_deme : ℤ) (root_time : ℚ)
    (trueEvents : List (ℚ × ℤ × ℤ)) (outbreak_origin : ℤ) :
    Except String EvalScores :=
  let numInferredEvents := events.length
  let inferredMap0 := inferredEarliestIntroductions events
  let inferredMap := if 0 ≤ root_deme then
      dictInsert inferredMap0 root_deme ⟨0, root_time, none⟩
    else inferredMap0
  let trueMap := dictInsert (trueEarliestIntroductions trueEvents) outbreak_origin ⟨0, none⟩
  let scores := evalScoreFold inferredMap outbreak_origin trueMap
  let numDemes := trueMap.length
  if trueEvents.length = 0 then
    .error "ZeroDivisionError: division by zero"
  else
    .ok { num_inferred_events := numInferredEvents,
          prop_true_events_inferred := (numInferredEvents : ℚ) / (trueEvents.length : ℚ),
          earliest_intro_time_eval_count := scores.1 / (numDemes : ℚ),
          earliest_intro_time_eval_score := scores.2.1 / (numDemes : ℚ),
          earliest_intro_source_eval_count := scores.2.2 / (numDemes : ℚ) }

/-- Stable insertion of `x` before the first element `y` with `le x y`. -/
def orderedInsertBy {α : Type} (le : α → α → Bool) (x : α) : List α → List α
  | [] => [x]
  | y :: ys => if le x y then x :: y :: ys else y :: orderedInsertBy le x ys

/-- Stable sort (agrees with Python's stable `sorted` for a total
preorder comparator). -/
def insertionSortBy {α : Type} (le : α → α → Bool) : List α → List α
  | [] => []
  | x :: xs => orderedInsertBy le x (insertionSortBy le xs)

/-- A leaf of the inferred tree as `thin_tree` sees it: its `name`, branch
length `dist` and the (never-changing, since only leaves are ever deleted)
name of its parent `up`. -/
structure VLeaf where
  name : String
  dist : ℚ
  parent : String
deriving DecidableEq, Repr

/-- The fields of an inferred migratory event that `thin_tree` reads:
anchor endpoints, lineage `members` and lineage `size`. -/
structure TLEvent where
  origin_node : String
  destination_node : String
  members : List String
  size : Nat
deriving DecidableEq, Repr

/-- The `anchor_nodes` set of `thin_tree` (`tree_thinning.py` line 16):
all event origins and destinations plus the tree root's name. -/
def anchorNodes (events : List TLEvent) (rootName : String) : List String :=
  events.map (fun e => e.origin_node) ++ events.map (fun e => e.destination_node) ++ [rootName]

/-- The `lineage_members` union (`tree_thinning.py` lines 29-31). -/
def lineageMembers (events : List TLEvent) : List String :=
  events.foldl (fun acc e => acc ++ e.members) []

/-- Python `s.startswith(pfx)`, over the strings' character lists (the
built-in `String.startsWith` is byte-offset-based and equivalent). -/
def pyStartsWith (s pfx : String) : Bool := pfx.data.isPrefixOf s.data

/-- The `exterior_leaves` pool (`tree_thinning.py` lines 34-37): leaves
whose name is in no lineage's member set AND whose name starts with the
literal prefix `'leaf'`. -/
def exteriorLeaves (allLeaves : List VLeaf) (events : List TLEvent) : List VLeaf :=
  allLeaves.filter (fun l =>
    !((lineageMembers events).contains l.name) && pyStartsWith l.name "leaf")

/-- State of the exterior-pool removal loop: remaining `exterior_leaves`,
remaining `all_leaves`, the `skipped_leaves` names, the remaining
`num_to_remove` budget and the `removed_any` flag of the current pass. -/
structure ExtState where
  ext : List VLeaf
  all : List VLeaf
  skipped : List String
  budget : ℤ
  removedAny : Bool
deriving Repr

/-- One `for leaf_name in sorted_leaves:` pass of the exterior loop
(`tree_thinning.py` lines 71-94): skip names no longer present, mark
anchor-adjacent leaves as skipped, otherwise delete the leaf from both
tracking dicts, decrement the budget, and break once it reaches zero. -/
def extPass (anchors : List String) : List String → ExtState → ExtState
  | [], st => st
  | n :: rest, st =>
    match st.ext.find? (fun l => l.name == n) with
    | none => extPass anchors rest st
    | some leaf =>
      if anchors.contains leaf.parent then
        extPass anchors rest { st with skipped := st.skipped ++ [n] }
      else
        let st' : ExtState :=
          { ext := st.ext.filter (fun l => l.name ≠ n)
            all := st.all.filter (fun l => l.name ≠ n)
            skipped := st.skipped
            budget := st.budget - 1
            removedAny := true }
        if st'.budget ≤ 0 then st' else extPass anchors rest st'

/-- The `while num_to_remove > 0:` exterior loop (`tree_thinning.py` lines
54-98).  Each continuing iteration removes at least one leaf, so a fuel of
`budget.toNat + 1` makes the fuel-indexed recursion exact. -/
def extLoop (anchors : List String) : Nat → ExtState → ExtState
  | 0, st => st
  | fuel + 1, st =>
    if st.budget ≤ 0 then st
    else
      let avail := st.ext.filter (fun l => !(st.skipped.contains l.name))
      if avail.isEmpty then st
      else
        let names := (insertionSortBy (fun a b => a.dist ≤ b.dist) avail).map (fun l => l.name)
        let st' := extPass anchors names { st with removedAny := false }
        if st'.removedAny then extLoop anchors fuel st' else st'

/-- State of a lineage removal loop: remaining `all_leaves`, `skipped`
names, remaining budget, `removed_any` flag. -/
structure LinState where
  all : List VLeaf
  skipped : List String
  budget : ℤ
  removedAny : Bool
deriving Repr

/-- One `for leaf_name in sorted_leaves:` pass of a lineage loop
(`tree_thinning.py` lines 122-141). -/
def linPass (anchors : List String) : List String → LinState → LinState
  | [], st => st
  | n :: rest, st =>
    match st.all.find? (fun l => l.name == n) with
    | none => linPass anchors rest st
    | some leaf =>
      if anchors.contains leaf.parent then
        linPass anchors rest { st with skipped := st.skipped ++ [n] }
      else
        let st' : LinState :=
          { all := st.all.filter (fun l => l.name ≠ n)
            skipped := st.skipped
            budget := st.budget - 1
            removedAny := true }
        if st'.budget ≤ 0 then st' else linPass anchors rest st'

/-- The `while num_to_remove > 0:` loop of one lineage
(`tree_thinning.py` lines 105-145), restricted to that lineage's members. -/
def linLoop (anchors : List String) (members : List String) : Nat → LinState → LinState
  | 0, st => st
  | fuel + 1, st =>
    if st.budget ≤ 0 then st
    else
      let avail := st.all.filter (fun l =>
        members.contains l.name && !(st.skipped.contains l.name))
      if avail.isEmpty then st
      else
        let names := (insertionSortBy (fun a b => a.dist ≤ b.dist) avail).map (fun l => l.name)
        let st' := linPass anchors names { st with removedAny := false }
        if st'.removedAny then linLoop anchors members fuel st' else st'

/-- The `for lineage in sorted_inferred_migratory_events:` phase
(`tree_thinning.py` lines 101-145): each qualifying lineage gets the
budget `int(global_thinning_factor * size ** alpha)` and is thinned by its
own loop. -/
def linPhase (anchors : List String) (factor : ℚ) (fpow : Nat → ℚ) :
    List TLEvent → List VLeaf → List VLeaf
  | [], all => all
  | e :: rest, all =>
    let budget := pyInt (factor * fpow e.size)
    let st := linLoop anchors e.members (budget.toNat + 1) ⟨all, [], budget, false⟩
    linPhase anchors factor fpow rest st.all

/-- Embedding of `thin_tree` (`tree_thinning.py`).  The tree is observed
through its leaf list (ete3 `get_leaves()` order); internal nodes are
untouched by the routine, so a leaf's parent name is constant.  The float
power `size ** alpha` is abstracted by `fpow` (exact for e.g. alpha = 1);
`fuzziness` is accepted and, as in the source, never used.  The one raise
the body can produce is the float `ZeroDivisionError` when there are no
qualifying lineages and no exterior leaves; the result is the list of
surviving original leaves (the final `all_leaves` tracking dict). -/
def thin_tree (leaves : List VLeaf) (rootName : String) (events : List TLEvent)
    (target_size : Nat) (min_lineage_size : Nat) (_fuzziness : ℚ) (fpow : Nat → ℚ) :
    Except String (List VLeaf) :=
  let anchors := anchorNodes events rootName
  let initialTreeSize := leaves.length
  if initialTreeSize ≤ target_size then .ok leaves
  else
    let ext := exteriorLeaves leaves events
    let sortedEvents := insertionSortBy (fun a b => b.size ≤ a.size)
      (events.filter (fun e => min_lineage_size ≤ e.size))
    let totalWeightedLineageSize := (sortedEvents.map (fun e => fpow e.size)).sum
    let weightedExteriorSize := fpow ext.length
    if totalWeightedLineageSize + weightedExteriorSize = 0 then
      .error "ZeroDivisionError: float division by zero"
    else
      let factor := ((initialTreeSize : ℚ) - (target_size : ℚ)) /
        (totalWeightedLineageSize + weightedExteriorSize)
      let extBudget := pyInt (factor * weightedExteriorSize)
      let st := extLoop anchors (extBudget.toNat + 1) ⟨ext, leaves, [], extBudget, false⟩
      .ok (linPhase anchors factor fpow sortedEvents st.all)

theorem sampleIds_subset_collectChainSamples (m : InfNode) :
    ∀ x ∈ m.sampleIds, x ∈ collectChainSamples m := by
  cases m with
  | root s => simp [InfNode.sampleIds, collectChainSamples]
  | child s h => intro x hx; simp [InfNode.sampleIds, collectChainSamples] at *; exact Or.inl hx

theorem ancestor_samples_subset_collectChainSamples (m anc : InfNode)
    (h : anc ∈ m.ancestors) : ∀ x ∈ anc.sampleIds, x ∈ collectChainSamples m := by
  induction m with
  | root s => simp [InfNode.ancestors] at h
  | child s hd ih =>
    simp only [InfNode.ancestors, List.mem_cons] at h
    intro x hx
    simp only [collectChainSamples, List.mem_append]
    rcases h with rfl | h
    · exact Or.inr (sampleIds_subset_collectChainSamples _ x hx)
    · exact Or.inr (ih h x hx)

theorem ancestor_samples_subset_previous (n anc : InfNode)
    (h : anc ∈ n.ancestors) : ∀ x ∈ anc.sampleIds, x ∈ get_previous_samples n := by
  cases n with
  | root s => simp [InfNode.ancestors] at h
  | child s hd =>
    simp only [InfNode.ancestors, List.mem_cons] at h
    intro x hx
    simp only [get_previous_samples]
    rcases h with rfl | h
    · exact sampleIds_subset_collectChainSamples _ x hx
    · exact ancestor_samples_subset_collectChainSamples _ _ h x hx

/-- C1: for every inference node, every ancestor reached by walking `head`
links, and every list of sample ids produced by the owning
SamplingDesign's draw, the id list returned by `draw_samples` contains no
id present in that ancestor's drawn sample set. -/
theorem draw_samples_excludes_all_ancestor_samples
    (n anc : InfNode) (drawn : List Nat) (s : Nat)
    (hanc : anc ∈ n.ancestors) (hs : s ∈ draw_samples_filtered n drawn) :
    s ∉ anc.sampleIds := by
  intro hmem
  have hprev : s ∈ get_previous_samples n :=
    ancestor_samples_subset_previous n anc hanc s hmem
  simp only [draw_samples_filtered, List.mem_filter, decide_eq_true_eq] at hs
  rcases hs with ⟨_, hnot⟩
  exact hnot (List.elem_iff.mpr hprev)

/-- Closed witness for `draw_samples_excludes_all_ancestor_samples`:
a depth-2 chain where the allocation re-draws an ancestor's id 1. -/
theorem draw_samples_excludes_all_ancestor_samples_witness :
    (InfNode.root [1, 2]) ∈ (InfNode.child [5] (InfNode.root [1, 2])).ancestors ∧
    (3 : Nat) ∈ draw_samples_filtered (InfNode.child [5] (InfNode.root [1, 2])) [1, 3] ∧
    (3 : Nat) ∉ (InfNode.root [1, 2]).sampleIds :=
  ⟨by decide, by decide,
    draw_samples_excludes_all_ancestor_samples
      (InfNode.child [5] (InfNode.root [1, 2])) (InfNode.root [1, 2]) [1, 3] 3
      (by decide) (by decide)⟩

theorem countP_map_le_of {α : Type} (p q : α → Bool) (f : α → α) :
    ∀ l : List α, (∀ x ∈ l, p (f x) = true → q x = true) →
    (l.map f).countP p ≤ l.countP q := by
  intro l
  induction l with
  | nil => simp
  | cons a l ih =>
    intro h
    have h1 := ih (fun x hx => h x (List.mem_cons_of_mem a hx))
    simp only [List.map_cons, List.countP_cons]
    by_cases hp : p (f a) = true
    · have hq := h a (List.mem_cons_self a l) hp
      simp only [hp, hq, if_true]
      omega
    · rw [if_neg hp]
      split <;> omega

theorem countP_eq_key_le_one {α : Type} (f : α → Nat) (k : Nat) :
    ∀ l : List α, (l.map f).Nodup → l.countP (fun x => f x == k) ≤ 1 := by
  intro l
  induction l with
  | nil => simp
  | cons a l ih =>
    intro hnd
    simp only [List.map_cons, List.nodup_cons] at hnd
    simp only [List.countP_cons]
    by_cases hk : f a = k
    · have hzero : l.countP (fun x => f x == k) = 0 := by
        rw [List.countP_eq_zero]
        intro x hx
        simp only [beq_iff_eq]
        intro hfx
        exact hnd.1 (hk ▸ hfx ▸ List.mem_map_of_mem f hx)
      simp [hk, hzero]
    · simp only [beq_iff_eq, hk, if_false]
      exact Nat.le_trans (by omega) (ih hnd.2)

theorem computeChain_head (db : List InfRecord) (r : InfRecord) :
    (computeChain db r).head = r.head := by
  cases h : r.head <;> simp [computeChain, h]

theorem computeChain_simulation (db : List InfRecord) (r : InfRecord) :
    (computeChain db r).simulation = r.simulation := by
  cases h : r.head <;> simp [computeChain, h]

theorem computeChain_pk (db : List InfRecord) (r : InfRecord) :
    (computeChain db r).pk = r.pk := by
  cases h : r.head <;> simp [computeChain, h]

theorem isRootFor_computeChain (db : List InfRecord) (r : InfRecord) (sim : Nat) :
    isRootFor sim (computeChain db r) = isRootFor sim r := by
  simp [isRootFor, computeChain_head, computeChain_simulation]

/-- C2: the single-root invariant of `Inference.save`.  First conjunct:
saving a brand-new row with a null `head` while a root already exists for
the same outbreak raises `ValidationError` and leaves the database
unchanged.  Second conjunct: any save that succeeds (insert or update)
preserves "at most one null-`head` row per outbreak" — in particular an
update can never introduce a second root. -/
theorem save_enforces_single_root
    (db : List InfRecord) (r : InfRecord)
    (hpk : (db.map InfRecord.pk).Nodup) :
    ((db.any (fun x => x.pk == r.pk)) = false → r.head = none →
      db.any (isRootFor r.simulation) = true →
      saveInference db r = .error "Only one root inference is allowed." ∧
      saveInferenceState db r = db) ∧
    ((∀ sim, rootCount db sim ≤ 1) → ∀ db', saveInference db r = .ok db' →
      ∀ sim, rootCount db' sim ≤ 1) := by
  constructor
  · intro h1 h2 h3
    have herr : saveInference db r = .error "Only one root inference is allowed." := by
      simp [saveInference, h1, h2, h3]
    exact ⟨herr, by simp [saveInferenceState, herr]⟩
  · intro hinv db' hok sim
    unfold saveInference at hok
    by_cases hadd : db.any (fun x => x.pk == r.pk) = true
    · -- update branch
      simp only [hadd, Bool.not_true, Bool.false_eq_true, if_false] at hok
      by_cases hguard : (r.head == none && db.any fun x => x.pk != r.pk && isRootFor r.simulation x) = true
      · simp [hguard] at hok
      · simp only [hguard, Bool.false_eq_true, if_false, Except.ok.injEq] at hok
        subst hok
        by_cases hroot : isRootFor sim (computeChain db r) = true
        · -- the updated row is a root for `sim`: no other row may be
          have hhead : r.head = none := by
            have := hroot
            simp only [isRootFor, computeChain_head, computeChain_simulation,
              Bool.and_eq_true, beq_iff_eq] at this
            exact this.2
          have hsim : r.simulation = sim := by
            have := hroot
            simp only [isRootFor, computeChain_head, computeChain_simulation,
              Bool.and_eq_true, beq_iff_eq] at this
            exact this.1
          have hnone : db.any (fun x => x.pk != r.pk && isRootFor r.simulation x) = false := by
            cases hx : db.any (fun x => x.pk != r.pk && isRootFor r.simulation x) with
            | false => rfl
            | true =>
              exfalso
              apply hguard
              simp [hx, hhead]
          -- every row with a different pk is not a root for sim
          have hother : ∀ x ∈ db, x.pk ≠ r.pk → isRootFor sim x ≠ true := by
            intro x hx hne hroot'
            have hfalse := List.any_eq_false.mp hnone x hx
            apply hfalse
            simp only [Bool.and_eq_true, bne_iff_ne, ne_eq]
            exact ⟨hne, hsim ▸ hroot'⟩
          rw [rootCount]
          calc (db.map (fun x => if x.pk == r.pk then computeChain db r else x)).countP
                (isRootFor sim)
              ≤ db.countP (fun x => x.pk == r.pk) := by
                apply countP_map_le_of
                intro x hx hpx
                by_cases hxeq : x.pk == r.pk
                · exact hxeq
                · exfalso
                  simp only [hxeq, Bool.false_eq_true, if_false] at hpx
                  exact hother x hx (by simpa using hxeq) hpx
            _ ≤ 1 := countP_eq_key_le_one InfRecord.pk r.pk db hpk
        · -- the updated row is not a root for `sim`: count cannot grow
          rw [rootCount]
          calc (db.map (fun x => if x.pk == r.pk then computeChain db r else x)).countP
                (isRootFor sim)
              ≤ db.countP (isRootFor sim) := by
                apply countP_map_le_of
                intro x hx hpx
                by_cases hxeq : x.pk == r.pk
                · exfalso
                  simp only [hxeq, if_true] at hpx
                  exact hroot hpx
                · simpa [hxeq] using hpx
            _ ≤ 1 := hinv sim
    · -- insert branch
      simp only [Bool.not_eq_true] at hadd
      simp only [hadd, Bool.not_false, if_true] at hok
      by_cases hguard : (r.head == none && db.any (isRootFor r.simulation)) = true
      · simp [hguard] at hok
      · simp only [hguard, Bool.false_eq_true, if_false, Except.ok.injEq] at hok
        subst hok
        rw [rootCount, List.countP_append]
        by_cases hroot : isRootFor sim (computeChain db r) = true
        · have hhead : r.head = none := by
            have := hroot
            simp only [isRootFor, computeChain_head, computeChain_simulation,
              Bool.and_eq_true, beq_iff_eq] at this
            exact this.2
          have hsim : r.simulation = sim := by
            have := hroot
            simp only [isRootFor, computeChain_head, computeChain_simulation,
              Bool.and_eq_true, beq_iff_eq] at this
            exact this.1
          have hnone : db.any (isRootFor r.simulation) = false := by
            cases hx : db.any (isRootFor r.simulation) with
            | false => rfl
            | true => exact absurd (by simp [hx, hhead]) hguard
          have hzero : db.countP (isRootFor sim) = 0 := by
            rw [List.countP_eq_zero]
            intro x hx
            have := List.any_eq_false.mp (by simpa using hnone) x hx
            simpa [hsim] using this
          simp [hzero, hroot]
        · have : ([computeChain db r].countP (isRootFor sim)) = 0 := by
            simp only [List.countP_cons, List.countP_nil]
            simp [hroot]
          rw [this]
          simpa using hinv sim

/-- Closed witness for `save_enforces_single_root`: inserting a second
root for outbreak 5 fails and leaves the one-row database unchanged. -/
theorem save_enforces_single_root_witness :
    saveInference [⟨0, "r0", 5, none, ["r0"]⟩] ⟨1, "r1", 5, none, []⟩ =
      .error "Only one root inference is allowed." ∧
    saveInferenceState [⟨0, "r0", 5, none, ["r0"]⟩] ⟨1, "r1", 5, none, []⟩ =
      [⟨0, "r0", 5, none, ["r0"]⟩] :=
  (save_enforces_single_root [⟨0, "r0", 5, none, ["r0"]⟩] ⟨1, "r1", 5, none, []⟩
    (by decide)).1 (by decide) rfl (by decide)

/-- The filtered candidate pool of the spatial allocation primitives:
rows whose deme is in the target-deme list. -/
def spatialFilteredPool (ci : List (Nat × List ℚ)) (df : List Spl)
    (td : Option (List Nat)) : List Spl :=
  df.filter (fun s => (td.getD (ci.map Prod.fst)).contains s.deme)

/-- The filtered candidate pool of the temporal allocation primitives:
deme filter then inclusive day-range filter. -/
def temporalFilteredPool (ci : List (Nat × List ℚ)) (df : List Spl) (a b : Nat)
    (td : Option (List Nat)) : List Spl :=
  (df.filter (fun s => (td.getD (ci.map Prod.fst)).contains s.deme)).filter
    (fun s => a ≤ s.time ∧ s.time ≤ b)

/-- The `target_case_incidence` sub-dict of the temporal allocation
primitives. -/
def tciOf (ci : List (Nat × List ℚ)) (td : Option (List Nat)) : List (Nat × List ℚ) :=
  (td.getD (ci.map Prod.fst)).filterMap (fun d => (ci.lookup d).map (fun c => (d, c)))

/-- The filtered candidate pool of the single-pass spatiotemporal draw:
deme filter then day-range filter. -/
def stFilteredPool (df : List Spl) (tr : Option (Nat × Nat))
    (td : Option (List Nat)) : List Spl :=
  let df0 : List Spl := match td with
    | some tds => df.filter (fun s => tds.contains s.deme)
    | none => df
  match tr with
  | some r => df0.filter (fun s => r.1 ≤ s.time ∧ s.time ≤ r.2)
  | none => df0

theorem ussa_missing_target_error (ci : List (Nat × List ℚ)) (df : List Spl)
    (m : Nat) (td : Option (List Nat))
    (hN : (spatialFilteredPool ci df td).length ≠ 0) :
    uniform_sample_spatial_allocation ci df none none m td =
      .error "Either 'target_proportion' or 'target_number' must be specified." := by
  unfold uniform_sample_spatial_allocation
  unfold spatialFilteredPool at hN
  simp only [resolveTarget]
  rw [if_neg hN]

theorem ussa_empty_pool_zeros (ci : List (Nat × List ℚ)) (df : List Spl)
    (m : Nat) (td : Option (List Nat))
    (hN : (spatialFilteredPool ci df td).length = 0) :
    uniform_sample_spatial_allocation ci df none none m td =
      .ok ((td.getD (ci.map Prod.fst)).map (fun d => (d, 0))) := by
  unfold uniform_sample_spatial_allocation
  unfold spatialFilteredPool at hN
  rw [if_pos hN]

theorem uct_missing_target_error (d0 : Nat) (v0 : List ℚ) (rest : List (Nat × List ℚ))
    (df : List Spl) (a b m : Nat) (td : Option (List Nat)) (daily : List ℚ)
    (htci : (tciOf ((d0, v0) :: rest) td).isEmpty = false)
    (hN : (temporalFilteredPool ((d0, v0) :: rest) df a b td).length ≠ 0)
    (hab : ¬ ((b : ℤ) - a + 1 < 0))
    (hdaily : sumSlices ((tciOf ((d0, v0) :: rest) td).map Prod.snd) a (b + 1 - a) = .ok daily)
    (htotal : ¬ daily.sum = 0) :
    uniform_case_temporal_allocation ((d0, v0) :: rest) df (some (a, b)) none none m td =
      .error "Either 'target_proportion' or 'target_number' must be specified." := by
  unfold uniform_case_temporal_allocation
  unfold tciOf at htci hdaily
  unfold temporalFilteredPool at hN
  simp only [resolveTarget, Option.getD_some, htci, Bool.false_eq_true, if_false]
  rw [if_neg hN, if_neg hab, hdaily]
  simp only []
  rw [if_neg htotal]

theorem ust_missing_target_error (d0 : Nat) (v0 : List ℚ) (rest : List (Nat × List ℚ))
    (df : List Spl) (a b : Nat) (td : Option (List Nat))
    (htci : (tciOf ((d0, v0) :: rest) td).isEmpty = false)
    (hN : (temporalFilteredPool ((d0, v0) :: rest) df a b td).length ≠ 0) :
    uniform_sample_temporal_allocation ((d0, v0) :: rest) df (some (a, b)) none none td =
      .error "Either 'target_proportion' or 'target_number' must be specified." := by
  unfold uniform_sample_temporal_allocation
  unfold tciOf at htci
  unfold temporalFilteredPool at hN
  simp only [resolveTarget, Option.getD_some, htci, Bool.false_eq_true, if_false]
  rw [if_neg hN]

theorem ust_empty_pool_zeros (d0 : Nat) (v0 : List ℚ) (rest : List (Nat × List ℚ))
    (df : List Spl) (a b : Nat) (td : Option (List Nat))
    (hN : (temporalFilteredPool ((d0, v0) :: rest) df a b td).length = 0) :
    uniform_sample_temporal_allocation ((d0, v0) :: rest) df (some (a, b)) none none td =
      .ok (List.replicate v0.length 0) := by
  unfold uniform_sample_temporal_allocation
  unfold temporalFilteredPool at hN
  simp only [Option.getD_some]
  split
  · rfl
  · simp only [hN, if_pos, if_true]

theorem wst_missing_target_error (df : List Spl) (strat : TWStrat) (ci : Nat → Nat → ℚ)
    (tr : Option (Nat × Nat)) (td : Option (List Nat))
    (sampler : ℤ → List (Spl × ℚ) → List Spl)
    (h : (stFilteredPool df tr td).isEmpty = false) :
    weighted_spatiotemporal_sampling df strat ci tr none none td sampler =
      .error "Either 'target_proportion' or 'target_number' must be specified." := by
  unfold weighted_spatiotemporal_sampling
  unfold stFilteredPool at h
  simp only [resolveTarget]
  split
  · next hemp => rw [hemp] at h; simp at h
  · rfl

/-- C3 counterexample: with a pool of two samples in a single deme and
`target_proportion = 3/4`, the single deme receives the whole effective
target, which the code computes as `int(0.75 * 2) = 1`; a
round-to-nearest resolution would give `round(1.5) = 2`.  So the
effective target is the truncation, not the claimed rounding. -/
theorem allocation_target_truncation_counterexample :
    uniform_sample_spatial_allocation [(0, [1, 1])] [⟨0, 0, 0⟩, ⟨1, 1, 0⟩]
      (some (3/4)) none 0 none = .ok [(0, 1)] ∧
    roundHalfEven ((3/4) * 2) = 2 := ⟨by decide, by decide⟩

/-- C3 (amended): in `uniform_sample_spatial_allocation`,
`uniform_case_temporal_allocation` and `weighted_spatiotemporal_sampling`,
`target_number` takes precedence when both targets are given; a lone
`target_proportion` is resolved as `int(target_proportion * N)` —
truncation, not rounding — with `N` the size of the filtered candidate
pool; and a call with neither target fails with the configuration
`ValueError` provided the early empty-pool / zero-weight exits are not
taken. -/
theorem allocation_target_resolution_contract :
    (∀ ci df p n m td,
      uniform_sample_spatial_allocation ci df (some p) (some n) m td =
      uniform_sample_spatial_allocation ci df none (some n) m td) ∧
    (∀ ci df p m td,
      uniform_sample_spatial_allocation ci df (some p) none m td =
      uniform_sample_spatial_allocation ci df none
        (some (pyInt (p * (spatialFilteredPool ci df td).length))) m td) ∧
    (∀ ci df m td, (spatialFilteredPool ci df td).length ≠ 0 →
      uniform_sample_spatial_allocation ci df none none m td =
        .error "Either 'target_proportion' or 'target_number' must be specified.") ∧
    (∀ ci df tr p n m td,
      uniform_case_temporal_allocation ci df tr (some p) (some n) m td =
      uniform_case_temporal_allocation ci df tr none (some n) m td) ∧
    (∀ d0 v0 rest df a b p m td,
      uniform_case_temporal_allocation ((d0, v0) :: rest) df (some (a, b)) (some p) none m td =
      uniform_case_temporal_allocation ((d0, v0) :: rest) df (some (a, b)) none
        (some (pyInt (p * (temporalFilteredPool ((d0, v0) :: rest) df a b td).length))) m td) ∧
    (∀ d0 v0 rest df a b m td daily,
      (tciOf ((d0, v0) :: rest) td).isEmpty = false →
      (temporalFilteredPool ((d0, v0) :: rest) df a b td).length ≠ 0 →
      ¬ ((b : ℤ) - a + 1 < 0) →
      sumSlices ((tciOf ((d0, v0) :: rest) td).map Prod.snd) a (b + 1 - a) = .ok daily →
      ¬ daily.sum = 0 →
      uniform_case_temporal_allocation ((d0, v0) :: rest) df (some (a, b)) none none m td =
        .error "Either 'target_proportion' or 'target_number' must be specified.") ∧
    (∀ df strat ci tr p n td sampler,
      weighted_spatiotemporal_sampling df strat ci tr (some p) (some n) td sampler =
      weighted_spatiotemporal_sampling df strat ci tr none (some n) td sampler) ∧
    (∀ df strat ci tr p td sampler,
      weighted_spatiotemporal_sampling df strat ci tr (some p) none td sampler =
      weighted_spatiotemporal_sampling df strat ci tr none
        (some (pyInt (p * (stFilteredPool df tr td).length))) td sampler) ∧
    (∀ df strat ci tr td sampler, (stFilteredPool df tr td).isEmpty = false →
      weighted_spatiotemporal_sampling df strat ci tr none none td sampler =
        .error "Either 'target_proportion' or 'target_number' must be specified.") :=
  ⟨fun _ _ _ _ _ _ => rfl,
   fun _ _ _ _ _ => rfl,
   ussa_missing_target_error,
   fun _ _ _ _ _ _ _ => rfl,
   fun _ _ _ _ _ _ _ _ _ => rfl,
   uct_missing_target_error,
   fun _ _ _ _ _ _ _ _ => rfl,
   fun _ _ _ _ _ _ _ => rfl,
   wst_missing_target_error⟩

/-- Closed witness for `allocation_target_resolution_contract`: the
missing-target error fires on a one-sample pool. -/
theorem allocation_target_resolution_contract_witness :
    ((spatialFilteredPool [(0, [1])] [⟨0, 0, 0⟩] none).length ≠ 0) ∧
    uniform_sample_spatial_allocation [(0, [1])] [⟨0, 0, 0⟩] none none 0 none =
      .error "Either 'target_proportion' or 'target_number' must be specified." :=
  ⟨by decide,
   allocation_target_resolution_contract.2.2.1 [(0, [1])] [⟨0, 0, 0⟩] 0 none (by decide)⟩

/-- C10 counterexample: with an empty candidate pool and neither target
given, `uniform_sample_spatial_allocation` returns the all-zero
allocation instead of failing — the empty-pool early return precedes the
missing-target check. -/
theorem missing_target_empty_pool_counterexample :
    uniform_sample_spatial_allocation [(0, [1])] [] none none 0 none = .ok [(0, 0)] := by
  decide

/-- C10 (amended): a call with neither `target_proportion` nor
`target_number` fails with the configuration `ValueError` only when the
filtered candidate pool is non-empty; with an empty pool the allocation
primitives return the all-zero allocation without raising, because the
empty-pool early return precedes the missing-target check. -/
theorem missing_target_error_needs_nonempty_pool :
    (∀ ci df m td, (spatialFilteredPool ci df td).length ≠ 0 →
      uniform_sample_spatial_allocation ci df none none m td =
        .error "Either 'target_proportion' or 'target_number' must be specified.") ∧
    (∀ ci df m td, (spatialFilteredPool ci df td).length = 0 →
      uniform_sample_spatial_allocation ci df none none m td =
        .ok ((td.getD (ci.map Prod.fst)).map (fun d => (d, 0)))) ∧
    (∀ d0 v0 rest df a b td,
      (tciOf ((d0, v0) :: rest) td).isEmpty = false →
      (temporalFilteredPool ((d0, v0) :: rest) df a b td).length ≠ 0 →
      uniform_sample_temporal_allocation ((d0, v0) :: rest) df (some (a, b)) none none td =
        .error "Either 'target_proportion' or 'target_number' must be specified.") ∧
    (∀ d0 v0 rest df a b td,
      (temporalFilteredPool ((d0, v0) :: rest) df a b td).length = 0 →
      uniform_sample_temporal_allocation ((d0, v0) :: rest) df (some (a, b)) none none td =
        .ok (List.replicate v0.length 0)) :=
  ⟨ussa_missing_target_error, ussa_empty_pool_zeros,
   ust_missing_target_error, ust_empty_pool_zeros⟩

/-- Closed witness for `missing_target_error_needs_nonempty_pool`: the
temporal variant degrades to the zero vector on an empty pool. -/
theorem missing_target_error_needs_nonempty_pool_witness :
    (temporalFilteredPool [(0, [1, 1])] [] 0 1 none).length = 0 ∧
    uniform_sample_temporal_allocation [(0, [1, 1])] [] (some (0, 1)) none none none =
      .ok (List.replicate 2 0) :=
  ⟨by decide,
   missing_target_error_needs_nonempty_pool.2.2.2 0 [1, 1] [] [] 0 1 none (by decide)⟩

/-- C4: the failing input for `uniform_sample_temporal_allocation` — a
proper sub-range [1, 1] of the 3-day outbreak with one candidate in range.
The body builds `daily_sub_samples` of full length D = 3 and assigns it
into the length-1 slice `full_allocation[1:2]`, raising the NumPy
broadcast `ValueError`; its sibling `uniform_case_temporal_allocation`
behaves as documented on the same data, returning the length-3 vector with
zeros outside the range. -/
theorem temporal_subrange_broadcast_bug :
    uniform_sample_temporal_allocation [(0, [1, 1, 1])] [⟨0, 1, 0⟩] (some (1, 1))
      none (some 1) none = .error "could not broadcast input array" ∧
    uniform_case_temporal_allocation [(0, [1, 1, 1])] [⟨0, 1, 0⟩] (some (1, 1))
      none (some 1) 0 none = .ok [0, 1, 0] := ⟨by decide, by decide⟩

/-- C5: the failing input for `uniform_population_spatial_allocation` — a
single deme with population 0 and a non-empty one-sample pool.  The claim
says every deme should receive 0 with no error; the body reaches
`pop_size / total_population` with a zero divisor and raises
`ZeroDivisionError`. -/
theorem population_zero_weight_division_bug :
    uniform_population_spatial_allocation [(0, 0)] [⟨0, 0, 0⟩] none (some 1) 0 none =
      .error "ZeroDivisionError: float division by zero" := by decide

/-- C7 counterexample: with two inferred events and one ground-truth
event, the reported "proportion of true events inferred" is 2 — greater
than 1 — so it cannot be the fraction of ground-truth events matched by
some inferred event. -/
theorem evaluation_prop_counterexample :
    (evaluateInference [⟨0, 1, 1, 2⟩, ⟨1, 3, 0, 4⟩] 0 5 [(1, 0, 1)] 0).map
      EvalScores.prop_true_events_inferred = .ok 2 ∧ ¬ ((2 : ℚ) ≤ 1) :=
  ⟨by decide, by decide⟩

/-- C7 (amended): `prop_true_events_inferred` equals the plain count
ratio `num_inferred_events / len(true_events)` — no matching of inferred
to ground-truth events is performed, and the value can exceed 1. -/
theorem evaluation_prop_is_count_ratio (events : List EvEvent) (root_deme : ℤ)
    (root_time : ℚ) (trueEvents : List (ℚ × ℤ × ℤ)) (origin : ℤ)
    (h : trueEvents ≠ []) :
    ∃ s, evaluateInference events root_deme root_time trueEvents origin = .ok s ∧
      s.prop_true_events_inferred = (events.length : ℚ) / (trueEvents.length : ℚ) := by
  unfold evaluateInference
  rw [if_neg (fun hc => h (List.length_eq_zero.mp hc))]
  exact ⟨_, rfl, rfl⟩

/-- Closed witness for `evaluation_prop_is_count_ratio`. -/
theorem evaluation_prop_is_count_ratio_witness :
    ([((1 : ℚ), (0 : ℤ), (1 : ℤ))] : List (ℚ × ℤ × ℤ)) ≠ [] ∧
    ∃ s, evaluateInference [] 0 0 [(1, 0, 1)] 0 = .ok s ∧
      s.prop_true_events_inferred =
        ((([] : List EvEvent).length : ℚ) /
          (([((1 : ℚ), (0 : ℤ), (1 : ℤ))] : List (ℚ × ℤ × ℤ)).length : ℚ)) :=
  ⟨by decide, evaluation_prop_is_count_ratio [] 0 0 [(1, 0, 1)] 0 (by decide)⟩

/-- C9 counterexample: a leaf named `n0` belongs to no lineage (there are
no events at all), yet it is not in the exterior removal pool, because the
pool additionally requires the name to start with the literal `'leaf'`. -/
theorem exterior_pool_name_filter_counterexample :
    (lineageMembers []).contains "n0" = false ∧
    exteriorLeaves [⟨"n0", 1, "R"⟩] [] = [] := ⟨by decide, by decide⟩

/-- C9 (amended): a leaf is in the exterior removal pool iff its name is
absent from every lineage's member set AND its name starts with the
literal prefix `'leaf'` (the hard-coded `name.startswith('leaf')`
condition of `tree_thinning.py` line 36). -/
theorem exterior_pool_membership (allLeaves : List VLeaf) (events : List TLEvent)
    (l : VLeaf) :
    l ∈ exteriorLeaves allLeaves events ↔
      l ∈ allLeaves ∧ (lineageMembers events).contains l.name = false ∧
        pyStartsWith l.name "leaf" = true := by
  simp [exteriorLeaves, List.mem_filter, Bool.and_eq_true, Bool.not_eq_true',
    and_assoc]

theorem flatten_filter_eq_of_unique_key {κ : Type} (key : Spl → Nat) (F : κ → List Spl)
    (K : κ → Nat) :
    ∀ (l : List κ) (k : κ), k ∈ l → (l.map K).Nodup →
    (∀ p ∈ l, ∀ s ∈ F p, key s = K p) →
    ((l.map F).flatten).filter (fun s => decide (key s = K k)) =
      (F k).filter (fun s => decide (key s = K k)) := by
  intro l
  induction l with
  | nil => intro k hk; simp at hk
  | cons p rest ih =>
    intro k hk hnd hF
    simp only [List.map_cons, List.flatten_cons, List.filter_append]
    simp only [List.map_cons, List.nodup_cons] at hnd
    rcases List.mem_cons.mp hk with rfl | hk'
    · have hrest : ((rest.map F).flatten).filter (fun s => decide (key s = K k)) = [] := by
        apply List.filter_eq_nil_iff.mpr
        intro s hs
        rcases List.mem_flatten.mp hs with ⟨fl, hfl, hsf⟩
        rcases List.mem_map.mp hfl with ⟨q, hq, rfl⟩
        have hkey := hF q (List.mem_cons_of_mem _ hq) s hsf
        simp only [hkey, decide_eq_true_eq]
        intro hcontra
        exact hnd.1 (hcontra ▸ List.mem_map_of_mem K hq)
      rw [hrest, List.append_nil]
    · have hhead : (F p).filter (fun s => decide (key s = K k)) = [] := by
        apply List.filter_eq_nil_iff.mpr
        intro s hs
        have hkey := hF p (List.mem_cons_self p rest) s hs
        simp only [hkey, decide_eq_true_eq]
        intro hcontra
        exact hnd.1 (hcontra ▸ List.mem_map_of_mem K hk')
      rw [hhead, List.nil_append]
      exact ih k hk' hnd.2 (fun q hq => hF q (List.mem_cons_of_mem _ hq))

/-- The per-deme candidate subset of `weighted_temporal_sampling`:
rows of demes mentioned in the allocation, restricted to deme `d`. -/
def twDemeSubset (allocation : List (Nat × ℤ)) (df : List Spl) (d : Nat) : List Spl :=
  (df.filter (fun s => (allocation.map Prod.fst).contains s.deme)).filter
    (fun s => s.deme = d)

theorem weighted_temporal_take_all
    (allocation : List (Nat × ℤ)) (df : List Spl) (strat : TWStrat)
    (ci : Nat → Nat → ℚ) (sampler : ℤ → List (Spl × ℚ) → List Spl)
    (d : Nat) (n : ℤ)
    (hsampler : ∀ k l, ∀ x ∈ sampler k l, x ∈ l.map Prod.fst)
    (hnd : (allocation.map Prod.fst).Nodup)
    (hmem : (d, n) ∈ allocation)
    (hpos : 0 < n)
    (hw : ((twDemeSubset allocation df d).map
      (twWeight strat ci (twDemeSubset allocation df d) d)).sum ≠ 0)
    (hle : ((twDemeSubset allocation df d).length : ℤ) ≤ n) :
    (weighted_temporal_sampling allocation df strat ci sampler).filter
      (fun s => decide (s.deme = d)) = twDemeSubset allocation df d := by
  unfold twDemeSubset at hw hle ⊢
  unfold weighted_temporal_sampling
  simp only []
  have hF : ∀ p ∈ allocation, ∀ s ∈ (fun (dn : Nat × ℤ) =>
      if dn.2 ≤ 0 then []
      else
        let subset := (df.filter (fun s =>
          (allocation.map Prod.fst).contains s.deme)).filter (fun s => s.deme = dn.1)
        if subset.isEmpty then []
        else
          let weight := twWeight strat ci subset dn.1
          let totalWeight := (subset.map weight).sum
          if totalWeight = 0 then []
          else if (subset.length : ℤ) ≤ dn.2 then subset
          else sampler dn.2 (subset.map (fun s => (s, weight s)))) p,
      s.deme = p.1 := by
    intro p hp s hs
    simp only [] at hs
    split at hs
    · simp at hs
    · split at hs
      · simp at hs
      · split at hs
        · simp at hs
        · split at hs
          · exact of_decide_eq_true (List.mem_filter.mp hs).2
          · have hmem' := hsampler p.2 _ s hs
            have hsub : s ∈ (df.filter (fun s =>
                (allocation.map Prod.fst).contains s.deme)).filter
                (fun s => s.deme = p.1) := by
              simpa using hmem'
            exact of_decide_eq_true (List.mem_filter.mp hsub).2
  have heq := flatten_filter_eq_of_unique_key Spl.deme _ Prod.fst allocation (d, n)
    hmem hnd hF
  simp only [] at heq
  rw [heq]
  have hne : ¬ (n ≤ 0) := not_le.mpr hpos
  rw [if_neg hne]
  have hsub_ne : ((df.filter (fun s => (allocation.map Prod.fst).contains s.deme)).filter
      (fun s => s.deme = d)).isEmpty = false := by
    cases hx : ((df.filter (fun s => (allocation.map Prod.fst).contains s.deme)).filter
      (fun s => s.deme = d)).isEmpty with
    | false => rfl
    | true =>
      exfalso
      apply hw
      rw [List.isEmpty_iff] at hx
      rw [hx]
      simp
  rw [hsub_ne]
  simp only [Bool.false_eq_true, if_false]
  rw [if_neg hw, if_pos hle]
  apply List.filter_eq_self.mpr
  intro s hs
  exact (List.mem_filter.mp hs).2

/-- The per-day candidate subset of `weighted_spatial_sampling`: rows of
the (optionally deme-filtered) pool collected on day `d`. -/
def swDaySubset (df : List Spl) (target_demes : Option (List Nat)) (d : Nat) : List Spl :=
  (show List Spl from match target_demes with
   | some tds => df.filter (fun s => tds.contains s.deme)
   | none => df).filter (fun s => s.time = d)

theorem weighted_spatial_take_all_core
    (allocation : List ℤ) (dfT : List Spl) (ci : Nat → Nat → ℚ)
    (pop : Nat → ℚ) (strat : SWStrat)
    (sampler : ℤ → List (Spl × ℚ) → List Spl) (d : Nat)
    (hsampler : ∀ k l, ∀ x ∈ sampler k l, x ∈ l.map Prod.fst)
    (hd : d < allocation.length)
    (hpos : 0 < allocation.getD d 0)
    (hw : ((dfT.filter (fun s => s.time = d)).map
      (swWeight strat ci pop (dfT.filter (fun s => s.time = d)) d)).sum ≠ 0)
    (hle : ((dfT.filter (fun s => s.time = d)).length : ℤ) ≤ allocation.getD d 0) :
    (((List.range allocation.length).map (fun i =>
      if allocation.getD i 0 ≤ 0 then []
      else
        let subset := dfT.filter (fun s => s.time = i)
        if subset.isEmpty then []
        else
          let weight := swWeight strat ci pop subset i
          let totalWeight := (subset.map weight).sum
          if totalWeight = 0 then []
          else if (subset.length : ℤ) ≤ allocation.getD i 0 then subset
          else sampler (allocation.getD i 0)
            (subset.map (fun s => (s, weight s))))).flatten).filter
      (fun s => decide (s.time = d)) = dfT.filter (fun s => s.time = d) := by
  have hF : ∀ p ∈ List.range allocation.length, ∀ s ∈ (fun (i : Nat) =>
      if allocation.getD i 0 ≤ 0 then []
      else
        let subset := dfT.filter (fun s => s.time = i)
        if subset.isEmpty then []
        else
          let weight := swWeight strat ci pop subset i
          let totalWeight := (subset.map weight).sum
          if totalWeight = 0 then []
          else if (subset.length : ℤ) ≤ allocation.getD i 0 then subset
          else sampler (allocation.getD i 0)
            (subset.map (fun s => (s, weight s)))) p,
      s.time = p := by
    intro p hp s hs
    simp only [] at hs
    split at hs
    · simp at hs
    · split at hs
      · simp at hs
      · split at hs
        · simp at hs
        · split at hs
          · exact of_decide_eq_true (List.mem_filter.mp hs).2
          · have hmem' := hsampler (allocation.getD p 0) _ s hs
            have hsub : s ∈ dfT.filter (fun s => s.time = p) := by
              simpa using hmem'
            exact of_decide_eq_true (List.mem_filter.mp hsub).2
  have heq := flatten_filter_eq_of_unique_key Spl.time _ id (List.range allocation.length) d
    (List.mem_range.mpr hd) (by simpa using List.nodup_range allocation.length) hF
  simp only [id] at heq
  rw [heq]
  have hne : ¬ (allocation.getD d 0 ≤ 0) := not_le.mpr hpos
  rw [if_neg hne]
  have hsub_ne : (dfT.filter (fun s => s.time = d)).isEmpty = false := by
    cases hx : (dfT.filter (fun s => s.time = d)).isEmpty with
    | false => rfl
    | true =>
      exfalso
      apply hw
      rw [List.isEmpty_iff] at hx
      rw [hx]
      simp
  rw [hsub_ne]
  simp only [Bool.false_eq_true, if_false]
  rw [if_neg hw, if_pos hle]
  apply List.filter_eq_self.mpr
  intro s hs
  exact (List.mem_filter.mp hs).2

theorem weighted_spatial_take_all
    (allocation : List ℤ) (df : List Spl) (ci : Nat → Nat → ℚ)
    (td : Option (List Nat)) (pop : Nat → ℚ) (strat : SWStrat)
    (sampler : ℤ → List (Spl × ℚ) → List Spl) (d : Nat)
    (hsampler : ∀ k l, ∀ x ∈ sampler k l, x ∈ l.map Prod.fst)
    (hd : d < allocation.length)
    (hpos : 0 < allocation.getD d 0)
    (hw : ((swDaySubset df td d).map
      (swWeight strat ci pop (swDaySubset df td d) d)).sum ≠ 0)
    (hle : ((swDaySubset df td d).length : ℤ) ≤ allocation.getD d 0) :
    (weighted_spatial_sampling allocation df ci td pop strat sampler).filter
      (fun s => decide (s.time = d)) = swDaySubset df td d := by
  unfold swDaySubset at hw hle ⊢
  unfold weighted_spatial_sampling
  cases td with
  | none =>
    exact weighted_spatial_take_all_core allocation df ci pop strat sampler d
      hsampler hd hpos hw hle
  | some tds =>
    exact weighted_spatial_take_all_core allocation
      (df.filter (fun s => tds.contains s.deme)) ci pop strat sampler d
      hsampler hd hpos hw hle

/-- C6: in both weighted-without-replacement draw primitives, a unit
(deme, respectively day) whose quota is positive and at least the number
of its available candidates, and whose per-unit total weight is nonzero,
contributes exactly all of its available samples — for every `sampler`,
i.e. without consulting the randomness at all. -/
theorem weighted_draw_quota_covers_takes_all :
    (∀ allocation df strat ci sampler d n,
      (∀ k l, ∀ x ∈ sampler k l, x ∈ l.map Prod.fst) →
      (allocation.map Prod.fst).Nodup → (d, n) ∈ allocation → 0 < n →
      ((twDemeSubset allocation df d).map
        (twWeight strat ci (twDemeSubset allocation df d) d)).sum ≠ 0 →
      ((twDemeSubset allocation df d).length : ℤ) ≤ n →
      (weighted_temporal_sampling allocation df strat ci sampler).filter
        (fun s => decide (s.deme = d)) = twDemeSubset allocation df d) ∧
    (∀ allocation df ci td pop strat sampler d,
      (∀ k l, ∀ x ∈ sampler k l, x ∈ l.map Prod.fst) →
      d < allocation.length → 0 < allocation.getD d 0 →
      ((swDaySubset df td d).map
        (swWeight strat ci pop (swDaySubset df td d) d)).sum ≠ 0 →
      ((swDaySubset df td d).length : ℤ) ≤ allocation.getD d 0 →
      (weighted_spatial_sampling allocation df ci td pop strat sampler).filter
        (fun s => decide (s.time = d)) = swDaySubset df td d) :=
  ⟨fun a df st ci sa d n h1 h2 h3 h4 h5 h6 =>
      weighted_temporal_take_all a df st ci sa d n h1 h2 h3 h4 h5 h6,
   fun a df ci td pop st sa d h1 h2 h3 h4 h5 =>
      weighted_spatial_take_all a df ci td pop st sa d h1 h2 h3 h4 h5⟩

/-- Closed witness for `weighted_draw_quota_covers_takes_all`: one deme
with quota 2 over a single candidate sample; the draw returns exactly
that sample even under a sampler that always returns nothing. -/
theorem weighted_draw_quota_covers_takes_all_witness :
    ((0, (2 : ℤ)) ∈ [((0 : Nat), (2 : ℤ))] ∧
      (([((0 : Nat), (2 : ℤ))].map Prod.fst).Nodup) ∧
      ((twDemeSubset [(0, 2)] [⟨0, 0, 0⟩] 0).length : ℤ) ≤ 2) ∧
    (weighted_temporal_sampling [(0, 2)] [⟨0, 0, 0⟩] TWStrat.samples
      (fun _ _ => 0) (fun _ _ => [])).filter (fun s => decide (s.deme = 0)) =
      twDemeSubset [(0, 2)] [⟨0, 0, 0⟩] 0 :=
  ⟨⟨by decide, by decide, by decide⟩,
   weighted_draw_quota_covers_takes_all.1 [(0, 2)] [⟨0, 0, 0⟩] TWStrat.samples
     (fun _ _ => 0) (fun _ _ => []) 0 2
     (by intro k l x hx; simp at hx) (by decide) (by decide) (by decide)
     (by decide) (by decide)⟩

theorem extPass_keeps_anchored
    (leaves : List VLeaf) (anchors : List String) (l : VLeaf)
    (hnd : (leaves.map VLeaf.name).Nodup) (hl : l ∈ leaves)
    (hanchor : anchors.contains l.parent = true) :
    ∀ (names : List String) (st : ExtState),
      st.ext.Sublist leaves → st.all.Sublist leaves → l ∈ st.all →
      ((extPass anchors names st).ext.Sublist leaves ∧
       (extPass anchors names st).all.Sublist leaves ∧
       l ∈ (extPass anchors names st).all) := by
  intro names
  induction names with
  | nil => intro st h1 h2 h3; exact ⟨h1, h2, h3⟩
  | cons n rest ih =>
    intro st h1 h2 h3
    unfold extPass
    cases hfind : st.ext.find? (fun x => x.name == n) with
    | none => exact ih st h1 h2 h3
    | some leaf =>
      by_cases hanc : anchors.contains leaf.parent = true
      · simp only [hanc, if_true]
        exact ih _ h1 h2 h3
      · simp only [hanc, Bool.false_eq_true, if_false]
        have hlname : l.name ≠ n := by
          intro hcontra
          have hleafmem : leaf ∈ leaves := h1.subset (List.mem_of_find?_eq_some hfind)
          have hleafname : leaf.name = n := by
            have := List.find?_some hfind
            simpa using this
          have : l = leaf :=
            List.inj_on_of_nodup_map hnd hl hleafmem (by rw [hcontra, hleafname])
          rw [this] at hanchor
          exact hanc hanchor
        have hext' : (st.ext.filter (fun x => x.name ≠ n)).Sublist leaves :=
          (List.filter_sublist _).trans h1
        have hall' : (st.all.filter (fun x => x.name ≠ n)).Sublist leaves :=
          (List.filter_sublist _).trans h2
        have hmem' : l ∈ st.all.filter (fun x => x.name ≠ n) :=
          List.mem_filter.mpr ⟨h3, decide_eq_true hlname⟩
        split
        · exact ⟨hext', hall', hmem'⟩
        · exact ih _ hext' hall' hmem'

theorem extLoop_keeps_anchored
    (leaves : List VLeaf) (anchors : List String) (l : VLeaf)
    (hnd : (leaves.map VLeaf.name).Nodup) (hl : l ∈ leaves)
    (hanchor : anchors.contains l.parent = true) :
    ∀ (fuel : Nat) (st : ExtState),
      st.ext.Sublist leaves → st.all.Sublist leaves → l ∈ st.all →
      ((extLoop anchors fuel st).ext.Sublist leaves ∧
       (extLoop anchors fuel st).all.Sublist leaves ∧
       l ∈ (extLoop anchors fuel st).all) := by
  intro fuel
  induction fuel with
  | zero => intro st h1 h2 h3; exact ⟨h1, h2, h3⟩
  | succ fuel ih =>
    intro st h1 h2 h3
    unfold extLoop
    split
    · exact ⟨h1, h2, h3⟩
    · simp only []
      split
      · exact ⟨h1, h2, h3⟩
      · have hpass := extPass_keeps_anchored leaves anchors l hnd hl hanchor
          ((insertionSortBy (fun a b => a.dist ≤ b.dist)
            (st.ext.filter (fun x => !(st.skipped.contains x.name)))).map (fun x => x.name))
          { st with removedAny := false } h1 h2 h3
        split
        · exact ih _ hpass.1 hpass.2.1 hpass.2.2
        · exact hpass

theorem linPass_keeps_anchored
    (leaves : List VLeaf) (anchors : List String) (l : VLeaf)
    (hnd : (leaves.map VLeaf.name).Nodup) (hl : l ∈ leaves)
    (hanchor : anchors.contains l.parent = true) :
    ∀ (names : List String) (st : LinState),
      st.all.Sublist leaves → l ∈ st.all →
      ((linPass anchors names st).all.Sublist leaves ∧
       l ∈ (linPass anchors names st).all) := by
  intro names
  induction names with
  | nil => intro st h2 h3; exact ⟨h2, h3⟩
  | cons n rest ih =>
    intro st h2 h3
    unfold linPass
    cases hfind : st.all.find? (fun x => x.name == n) with
    | none => exact ih st h2 h3
    | some leaf =>
      by_cases hanc : anchors.contains leaf.parent = true
      · simp only [hanc, if_true]
        exact ih _ h2 h3
      · simp only [hanc, Bool.false_eq_true, if_false]
        have hlname : l.name ≠ n := by
          intro hcontra
          have hleafmem : leaf ∈ leaves := h2.subset (List.mem_of_find?_eq_some hfind)
          have hleafname : leaf.name = n := by
            have := List.find?_some hfind
            simpa using this
          have : l = leaf :=
            List.inj_on_of_nodup_map hnd hl hleafmem (by rw [hcontra, hleafname])
          rw [this] at hanchor
          exact hanc hanchor
        have hall' : (st.all.filter (fun x => x.name ≠ n)).Sublist leaves :=
          (List.filter_sublist _).trans h2
        have hmem' : l ∈ st.all.filter (fun x => x.name ≠ n) :=
          List.mem_filter.mpr ⟨h3, decide_eq_true hlname⟩
        split
        · exact ⟨hall', hmem'⟩
        · exact ih _ hall' hmem'

theorem linLoop_keeps_anchored
    (leaves : List VLeaf) (anchors : List String) (members : List String) (l : VLeaf)
    (hnd : (leaves.map VLeaf.name).Nodup) (hl : l ∈ leaves)
    (hanchor : anchors.contains l.parent = true) :
    ∀ (fuel : Nat) (st : LinState),
      st.all.Sublist leaves → l ∈ st.all →
      ((linLoop anchors members fuel st).all.Sublist leaves ∧
       l ∈ (linLoop anchors members fuel st).all) := by
  intro fuel
  induction fuel with
  | zero => intro st h2 h3; exact ⟨h2, h3⟩
  | succ fuel ih =>
    intro st h2 h3
    unfold linLoop
    split
    · exact ⟨h2, h3⟩
    · simp only []
      split
      · exact ⟨h2, h3⟩
      · have hpass := linPass_keeps_anchored leaves anchors l hnd hl hanchor
          ((insertionSortBy (fun a b => a.dist ≤ b.dist)
            (st.all.filter (fun x =>
              members.contains x.name && !(st.skipped.contains x.name)))).map
            (fun x => x.name))
          { st with removedAny := false } h2 h3
        split
        · exact ih _ hpass.1 hpass.2
        · exact hpass

theorem linPhase_keeps_anchored
    (leaves : List VLeaf) (anchors : List String) (factor : ℚ) (fpow : Nat → ℚ)
    (l : VLeaf)
    (hnd : (leaves.map VLeaf.name).Nodup) (hl : l ∈ leaves)
    (hanchor : anchors.contains l.parent = true) :
    ∀ (evs : List TLEvent) (all : List VLeaf),
      all.Sublist leaves → l ∈ all →
      ((linPhase anchors factor fpow evs all).Sublist leaves ∧
       l ∈ linPhase anchors factor fpow evs all) := by
  intro evs
  induction evs with
  | nil => intro all h2 h3; exact ⟨h2, h3⟩
  | cons e rest ih =>
    intro all h2 h3
    unfold linPhase
    have hloop := linLoop_keeps_anchored leaves anchors e.members l hnd hl hanchor
      ((pyInt (factor * fpow e.size)).toNat + 1)
      ⟨all, [], pyInt (factor * fpow e.size), false⟩ h2 h3
    exact ih _ hloop.1 hloop.2

/-- C8: `thin_tree` never removes a leaf whose immediate parent is an
anchor node (a migratory-event endpoint or the tree root): every such leaf
present before thinning is present in the surviving leaf list, and the
call returns without raising whenever it returns at all (blocked removal
budgets make the loops stop early rather than error).  Leaf names are
assumed unique, as they are in the ete3 tree and its `all_leaves` dict. -/
theorem thin_tree_preserves_anchor_adjacent_leaves
    (leaves : List VLeaf) (rootName : String) (events : List TLEvent)
    (target_size min_lineage_size : Nat) (fz : ℚ) (fpow : Nat → ℚ)
    (l : VLeaf) (res : List VLeaf)
    (hnd : (leaves.map VLeaf.name).Nodup)
    (hl : l ∈ leaves)
    (hanchor : (anchorNodes events rootName).contains l.parent = true)
    (hres : thin_tree leaves rootName events target_size min_lineage_size fz fpow =
      .ok res) :
    l ∈ res := by
  unfold thin_tree at hres
  simp only [] at hres
  split at hres
  · rw [Except.ok.injEq] at hres
    rw [← hres]
    exact hl
  · split at hres
    · exact absurd hres (by simp)
    · rw [Except.ok.injEq] at hres
      rw [← hres]
      refine (linPhase_keeps_anchored leaves (anchorNodes events rootName) _ fpow l
        hnd hl hanchor _ _ ?_ ?_).2
      · exact (extLoop_keeps_anchored leaves (anchorNodes events rootName) l hnd hl
          hanchor _ _ (List.filter_sublist _) (List.Sublist.refl leaves) hl).2.1
      · exact (extLoop_keeps_anchored leaves (anchorNodes events rootName) l hnd hl
          hanchor _ _ (List.filter_sublist _) (List.Sublist.refl leaves) hl).2.2

/-- Closed witness for `thin_tree_preserves_anchor_adjacent_leaves`: a
three-leaf tree thinned to one leaf removes the two non-anchored leaves
and keeps `leafA`, whose parent is the root anchor. -/
theorem thin_tree_preserves_anchor_adjacent_leaves_witness :
    thin_tree [⟨"leafA", 1, "R"⟩, ⟨"leafB", 2, "X"⟩, ⟨"leafC", 3, "X"⟩] "R" [] 1 1 0
      (fun n => (n : ℚ)) = .ok [⟨"leafA", 1, "R"⟩] ∧
    (anchorNodes [] "R").contains "R" = true ∧
    (⟨"leafA", 1, "R"⟩ : VLeaf) ∈ ([⟨"leafA", 1, "R"⟩] : List VLeaf) :=
  ⟨by decide, by decide,
   thin_tree_preserves_anchor_adjacent_leaves
     [⟨"leafA", 1, "R"⟩, ⟨"leafB", 2, "X"⟩, ⟨"leafC", 3, "X"⟩] "R" [] 1 1 0
     (fun n => (n : ℚ)) ⟨"leafA", 1, "R"⟩ [⟨"leafA", 1, "R"⟩]
     (by decide) (by decide) (by decide) (by decide)⟩
